import Mathlib

/-!
Verification development for the pscan TCP connect-scanner (src/pscan.go).

The Go source is shallowly embedded:

* Go strings are modelled as `List Char` where the code manipulates their
  contents (splitting, trimming, digit parsing) and as Lean `String` where
  they are only concatenated and compared.
* `strconv.Atoi`, `strings.Split` (single-character separators only, which
  is all the source uses), `strings.Contains` and `strings.TrimSpace` are
  given executable character-level models.
* The probe `scanPort` performs network I/O; its observable behaviour is
  modelled as the list of output lines it prints, parameterised by the
  outcome of the dial (`Option String`: `some msg` is a failed dial with
  error text `msg`) and the outcome of the banner read
  (`Option (List Char)`: `none` is a read error, including a deadline
  expiry).
* The concurrent dispatch loop of `runPortScan` is modelled as a labelled
  transition system (`Step` / `Exec`) whose events are probe dispatches,
  probe completions and the final completion announcement.
-/

/-- Character-level model of Go `strings.Split` restricted to a
single-character separator (the source only splits on "-" and "\n").
Matches Go semantics: splitting the empty string yields `[[]]`, a
trailing separator yields a trailing empty token. -/
def splitOnChar (sep : Char) : List Char → List (List Char)
  | [] => [[]]
  | c :: rest =>
    if c = sep then [] :: splitOnChar sep rest
    else
      match splitOnChar sep rest with
      | [] => [[c]]
      | h :: t => (c :: h) :: t

/-- Numeric value of a list of decimal digit characters, most significant
digit first. -/
def digitsVal (ds : List Char) : Nat :=
  ds.foldl (fun a c => a * 10 + (c.toNat - 48)) 0

/-- Helper for `goAtoi`: parse an unsigned run of digits and apply a sign.
Fails on an empty digit run or any non-digit character, as
`strconv.Atoi` does. -/
def goAtoiDigits (sign : Int) (ds : List Char) : Option Int :=
  if ds.isEmpty then none
  else if ds.all Char.isDigit then some (sign * (digitsVal ds : Int)) else none

/-- Model of Go `strconv.Atoi`: an optional leading '+' or '-' followed by
at least one decimal digit and nothing else. (The int64 overflow bound of
the real `Atoi` is not modelled; every value this program feeds it is far
below the bound.) -/
def goAtoi (cs : List Char) : Option Int :=
  match cs with
  | [] => none
  | c :: rest =>
    if c = '+' then goAtoiDigits 1 rest
    else if c = '-' then goAtoiDigits (-1) rest
    else goAtoiDigits 1 (c :: rest)

/-- Embedding of `parsePortRange` (src/pscan.go lines 27-61): split on "-",
require exactly two tokens, parse each with `Atoi`, then validate
`start >= 1`, `end > start`, `end <= 65535`, in that order. -/
def parsePortRange (rangeStr : List Char) : Except String (Int × Int) :=
  match splitOnChar '-' rangeStr with
  | [startTok, endTok] =>
    match goAtoi startTok with
    | none => Except.error ("invalid start port: " ++ String.mk startTok)
    | some startPort =>
      match goAtoi endTok with
      | none => Except.error ("invalid end port: " ++ String.mk endTok)
      | some endPort =>
        if startPort < 1 then Except.error "start port must be 1 or greater"
        else if endPort ≤ startPort then
          Except.error "end port must be greater than start port"
        else if endPort > 65535 then
          Except.error "end port must be less than or equal to 65535"
        else Except.ok (startPort, endPort)
  | _ => Except.error "invalid port range format, use: startPort-endPort"

/-- Port-interval selection performed by `main` (src/pscan.go lines
255-269): the all-ports flag forces (1, 65535), otherwise the common-only
flag forces (1, 1024), otherwise the explicit range string is parsed. The
two Bool arguments are `options.AllPorts` and `options.CommonOnly`. -/
def resolvePortRange (allPorts commonOnly : Bool) (portRange : List Char) :
    Except String (Int × Int) :=
  if allPorts then Except.ok (1, 65535)
  else if commonOnly then Except.ok (1, 1024)
  else parsePortRange portRange

lemma splitOnChar_ne_nil (sep : Char) (cs : List Char) :
    splitOnChar sep cs ≠ [] := by
  induction cs with
  | nil => simp [splitOnChar]
  | cons c rest ih =>
    rw [splitOnChar]
    split
    · simp
    · split
      · simp
      · simp

lemma splitOnChar_of_notMem (sep : Char) (cs : List Char)
    (h : sep ∉ cs) : splitOnChar sep cs = [cs] := by
  induction cs with
  | nil => rfl
  | cons c rest ih =>
    have hc : c ≠ sep := fun he => h (he ▸ List.mem_cons_self c rest)
    have hrest : sep ∉ rest := fun hm => h (List.mem_cons_of_mem c hm)
    rw [splitOnChar, if_neg hc, ih hrest]

lemma splitOnChar_append (sep : Char) (t1 t2 : List Char)
    (h1 : sep ∉ t1) (h2 : sep ∉ t2) :
    splitOnChar sep (t1 ++ sep :: t2) = [t1, t2] := by
  induction t1 with
  | nil =>
    rw [List.nil_append, splitOnChar, if_pos rfl, splitOnChar_of_notMem sep t2 h2]
  | cons c rest ih =>
    have hc : c ≠ sep := fun he => h1 (he ▸ List.mem_cons_self c rest)
    have hrest : sep ∉ rest := fun hm => h1 (List.mem_cons_of_mem c hm)
    rw [List.cons_append, splitOnChar, if_neg hc, ih hrest]

lemma isDigit_ne_plus {c : Char} (h : c.isDigit = true) : c ≠ '+' := by
  intro he
  subst he
  simp [Char.isDigit] at h

lemma isDigit_ne_hyphen {c : Char} (h : c.isDigit = true) : c ≠ '-' := by
  intro he
  subst he
  simp [Char.isDigit] at h

lemma notMem_hyphen_of_digits {t : List Char}
    (h : t.all Char.isDigit = true) : '-' ∉ t := by
  intro hm
  have := List.all_eq_true.mp h _ hm
  simp [Char.isDigit] at this

lemma goAtoi_of_digits (t : List Char) (hne : t ≠ [])
    (hd : t.all Char.isDigit = true) :
    goAtoi t = some ((digitsVal t : Nat) : Int) := by
  cases t with
  | nil => exact absurd rfl hne
  | cons c rest =>
    have hc : c.isDigit = true := List.all_eq_true.mp hd _ (List.mem_cons_self c rest)
    rw [goAtoi, if_neg (isDigit_ne_plus hc), if_neg (isDigit_ne_hyphen hc),
      goAtoiDigits, if_neg (by simp), if_pos hd]
    simp

/-- C3: for every explicit range string "start-end" built from decimal
digit tokens whose values satisfy 1 ≤ start < end ≤ 65535, the resolver
returns exactly (start, end); when the two tokens have equal value it
fails with the "end port must be greater than start port" range error. -/
theorem parsePortRange_valid_and_equal_boundary :
    (∀ (t1 t2 : List Char) (s e : Nat),
      t1 ≠ [] → t1.all Char.isDigit = true →
      t2 ≠ [] → t2.all Char.isDigit = true →
      digitsVal t1 = s → digitsVal t2 = e →
      1 ≤ s → s < e → e ≤ 65535 →
      parsePortRange (t1 ++ '-' :: t2) = Except.ok ((s : Int), (e : Int))) ∧
    (∀ (t : List Char) (s : Nat),
      t ≠ [] → t.all Char.isDigit = true → digitsVal t = s → 1 ≤ s →
      parsePortRange (t ++ '-' :: t) =
        Except.error "end port must be greater than start port") := by
  constructor
  · intro t1 t2 s e hne1 hd1 hne2 hd2 hv1 hv2 hs hlt hub
    simp only [parsePortRange, splitOnChar_append '-' t1 t2
      (notMem_hyphen_of_digits hd1) (notMem_hyphen_of_digits hd2),
      goAtoi_of_digits t1 hne1 hd1, goAtoi_of_digits t2 hne2 hd2, hv1, hv2]
    rw [if_neg (by omega), if_neg (by omega), if_neg (by omega)]
  · intro t s hne hd hv hs
    simp only [parsePortRange, splitOnChar_append '-' t t
      (notMem_hyphen_of_digits hd) (notMem_hyphen_of_digits hd),
      goAtoi_of_digits t hne hd, hv]
    rw [if_neg (by omega), if_pos le_rfl]

theorem parsePortRange_valid_and_equal_boundary_witness :
    parsePortRange ("80".data ++ '-' :: "443".data) = Except.ok (80, 443) ∧
    parsePortRange ("80".data ++ '-' :: "80".data) =
      Except.error "end port must be greater than start port" :=
  ⟨parsePortRange_valid_and_equal_boundary.1 "80".data "443".data 80 443
      (by decide) (by decide) (by decide) (by decide) (by decide) (by decide)
      (by decide) (by decide) (by decide),
    parsePortRange_valid_and_equal_boundary.2 "80".data 80
      (by decide) (by decide) (by decide) (by decide)⟩

/-- C4: the resolver's validation rules fire in the fixed order format,
start-token parse, end-token parse, start ≥ 1, end > start, end ≤ 65535:
"100-50" hits the end-must-exceed-start error, "0-10" the start ≥ 1 error,
"1-99999" the end ≤ 65535 error, "abc-10" a parse error naming "abc"; the
extra cases "0-99999" (start check precedes the end-bound check),
"abc-def" (start parse precedes end parse) and "1-2-3" (format check
precedes everything) pin the order down further. -/
theorem parsePortRange_error_order :
    parsePortRange "100-50".data =
      Except.error "end port must be greater than start port" ∧
    parsePortRange "0-10".data = Except.error "start port must be 1 or greater" ∧
    parsePortRange "1-99999".data =
      Except.error "end port must be less than or equal to 65535" ∧
    parsePortRange "abc-10".data = Except.error "invalid start port: abc" ∧
    parsePortRange "0-99999".data =
      Except.error "start port must be 1 or greater" ∧
    parsePortRange "abc-def".data = Except.error "invalid start port: abc" ∧
    parsePortRange "1-2-3".data =
      Except.error "invalid port range format, use: startPort-endPort" := by
  refine ⟨?_, ?_, ?_, ?_, ?_, ?_, ?_⟩ <;> rfl

/-- C5: the all-ports flag yields (1, 65535) whatever the other inputs are,
the common-only flag yields (1, 1024) when the all-ports flag is off, and
the explicit range string is consulted exactly when both flags are off. -/
theorem resolvePortRange_mode_precedence :
    (∀ (commonOnly : Bool) (r : List Char),
      resolvePortRange true commonOnly r = Except.ok (1, 65535)) ∧
    (∀ r : List Char, resolvePortRange false true r = Except.ok (1, 1024)) ∧
    (∀ r : List Char, resolvePortRange false false r = parsePortRange r) :=
  ⟨fun _ _ => rfl, fun _ => rfl, fun _ => rfl⟩

/-- Embedding of the ScanOptions struct (src/pscan.go lines 15-24). Ports,
timeout and thread count are natural numbers; the timeout value plays no
role in the pure model beyond being carried along. -/
structure ScanOptions where
  Target : String
  StartPort : Nat
  EndPort : Nat
  Timeout : Nat
  Threads : Nat
  AllPorts : Bool
  CommonOnly : Bool
  Verbose : Bool

/-- Character-level model of Go `strings.Contains`: some index of the
haystack starts an occurrence of the pattern. -/
def containsSubstr (hay sub : List Char) : Bool :=
  (List.range (hay.length + 1)).any fun i => (hay.drop i).take sub.length == sub

/-- The whitespace test used by Go `strings.TrimSpace`, restricted to the
ASCII whitespace characters (the banners this concerns are ASCII). -/
def isGoSpace (c : Char) : Bool :=
  c == ' ' || c == '\t' || c == '\n' || c == '\x0b' || c == '\x0c' || c == '\r'

/-- Character-level model of Go `strings.TrimSpace`: drop whitespace from
both ends. -/
def goTrimSpace (cs : List Char) : List Char :=
  ((cs.dropWhile isGoSpace).reverse.dropWhile isGoSpace).reverse

/-- The static service table of getServiceName (src/pscan.go lines
114-136), as an association list. -/
def commonPorts : List (Nat × String) :=
  [(20, "FTP-data"), (21, "FTP"), (22, "SSH"), (23, "Telnet"), (25, "SMTP"),
   (53, "DNS"), (80, "HTTP"), (110, "POP3"), (111, "RPC"), (135, "RPC"),
   (139, "NetBIOS"), (143, "IMAP"), (443, "HTTPS"), (445, "SMB"),
   (993, "IMAPS"), (995, "POP3S"), (1723, "PPTP"), (3306, "MySQL"),
   (3389, "RDP"), (5900, "VNC"), (8080, "HTTP-Proxy")]

/-- Embedding of getServiceName (src/pscan.go lines 113-142): table hit
returns the service name, miss returns the empty string. -/
def getServiceName (port : Nat) : String :=
  match commonPorts.lookup port with
  | some service => service
  | none => ""

/-- Truncation step of getBanner (src/pscan.go lines 170-174): keep at
most 80 characters, appending "..." when something was cut. -/
def truncateBanner (banner : List Char) : String :=
  String.mk (if 80 < banner.length then banner.take 80 ++ "...".data else banner)

/-- Embedding of the read-and-clean part of getBanner (src/pscan.go lines
157-176). The network read is modelled by its outcome: `none` is a read
error (including expiry of the one-second read deadline set on line 147),
`some bytes` a successful read of `bytes`. On an error the probe gets the
empty banner; otherwise the bytes are trimmed, cut at the first newline
(the source guards on `len(lines) > 0`, mirrored by the match), re-trimmed
and truncated. -/
def getBanner (readResult : Option (List Char)) : String :=
  match readResult with
  | none => ""
  | some bytes =>
    match splitOnChar '\n' (goTrimSpace bytes) with
    | [] => truncateBanner (goTrimSpace bytes)
    | l :: _ => truncateBanner (goTrimSpace l)

/-- Embedding of the conditional greeting write of getBanner
(src/pscan.go lines 153-155): exactly for ports 80, 443 and 8080 a bare
HTTP HEAD request is written to the connection before reading; for every
other port nothing is sent. -/
def bannerGreeting (port : Nat) : Option String :=
  if port = 80 ∨ port = 443 ∨ port = 8080 then some "HEAD / HTTP/1.0\r\n\r\n"
  else none

/-- Modelled from the spec: the banner post-processing pipeline as §4.3
words it — trim surrounding whitespace, keep only the first line of the
newline split (re-trimmed), truncate to at most 80 characters appending an
ellipsis marker when truncated. Reference side of the C7 refinement. -/
def bannerPostprocessSpec (bytes : List Char) : String :=
  let first := goTrimSpace ((splitOnChar '\n' (goTrimSpace bytes)).headD [])
  String.mk (if 80 < first.length then first.take 80 ++ "...".data else first)

/-- Embedding of scanPort (src/pscan.go lines 64-110) as the list of
output lines it prints. `dialErr` is the outcome of dialer.Dial (`none`
for a successful connection, `some msg` for a failure with error text
`msg`); `readResult` is the outcome of the banner read on an open
connection. The WaitGroup bookkeeping carries no output and is modelled
by the engine transition system below. -/
def scanPort (options : ScanOptions) (port : Nat) (dialErr : Option String)
    (readResult : Option (List Char)) : List String :=
  match dialErr with
  | none =>
    let service := getServiceName port
    let openLine :=
      if service ≠ "" then "Port " ++ toString port ++ "/tcp open - " ++ service
      else "Port " ++ toString port ++ "/tcp open"
    if options.Verbose then
      let banner := getBanner readResult
      if banner ≠ "" then [openLine, "  └─ Banner: " ++ banner] else [openLine]
    else [openLine]
  | some errMsg =>
    if options.Verbose then
      if containsSubstr errMsg.data "timeout".data then
        ["Port " ++ toString port ++ "/tcp filtered (timeout)"]
      else if containsSubstr errMsg.data "refused".data then
        ["Port " ++ toString port ++ "/tcp closed (connection refused)"]
      else ["Port " ++ toString port ++ "/tcp closed (" ++ errMsg ++ ")"]
    else []

lemma String_data_mk (l : List Char) : (String.mk l).data = l := rfl

lemma lookup_val_mem {p : Nat} {s : String} :
    ∀ l : List (Nat × String), l.lookup p = some s → (p, s) ∈ l := by
  intro l
  induction l with
  | nil => intro h; simp [List.lookup] at h
  | cons a l ih =>
    intro h
    rw [List.lookup] at h
    rcases hb : p == a.1 with _ | _
    · rw [hb] at h
      exact List.mem_cons_of_mem _ (ih h)
    · rw [hb] at h
      have hpa : p = a.1 := eq_of_beq hb
      have hsa : s = a.2 := by injection h with h; exact h.symm
      subst hpa
      subst hsa
      exact List.mem_cons_self _ _

lemma commonPorts_lookup_ne_empty {port : Nat} {service : String}
    (h : commonPorts.lookup port = some service) : service ≠ "" := by
  have hmem := lookup_val_mem commonPorts h
  have hall : ∀ x ∈ commonPorts, x.2 ≠ "" := by decide
  exact hall _ hmem

/-- C6: a failed probe is classified from the dial error text — a text
containing "timeout" gives the filtered line, otherwise one containing
"refused" gives the closed (connection refused) line, anything else the
closed line carrying the raw error text — and each of these lines is
emitted exactly when verbose mode is on; with verbose off a failed probe
prints nothing. `scanPort` returning a plain list of lines (never an
error) reflects that no per-port failure aborts the scan. -/
theorem scanPort_failure_classification (options : ScanOptions) (port : Nat)
    (errMsg : String) (readResult : Option (List Char)) :
    (containsSubstr errMsg.data "timeout".data = true →
      scanPort options port (some errMsg) readResult =
        if options.Verbose then
          ["Port " ++ toString port ++ "/tcp filtered (timeout)"]
        else []) ∧
    (containsSubstr errMsg.data "timeout".data = false →
      containsSubstr errMsg.data "refused".data = true →
      scanPort options port (some errMsg) readResult =
        if options.Verbose then
          ["Port " ++ toString port ++ "/tcp closed (connection refused)"]
        else []) ∧
    (containsSubstr errMsg.data "timeout".data = false →
      containsSubstr errMsg.data "refused".data = false →
      scanPort options port (some errMsg) readResult =
        if options.Verbose then
          ["Port " ++ toString port ++ "/tcp closed (" ++ errMsg ++ ")"]
        else []) :=
  ⟨fun h1 => by simp [scanPort, h1],
    fun h1 h2 => by simp [scanPort, h1, h2],
    fun h1 h2 => by simp [scanPort, h1, h2]⟩

/-- A concrete verbose configuration used by the witnesses. -/
def verboseOptions : ScanOptions :=
  ⟨"localhost", 1, 1000, 2000, 100, false, false, true⟩

theorem scanPort_failure_classification_witness :
    scanPort verboseOptions 81 (some "connection refused") none =
      if verboseOptions.Verbose then
        ["Port " ++ toString 81 ++ "/tcp closed (connection refused)"]
      else [] :=
  (scanPort_failure_classification verboseOptions 81 "connection refused" none).2.1
    (by decide) (by decide)

/-- C7: the banner post-processing of getBanner coincides with the spec's
pipeline (trim, first line of the newline split re-trimmed, truncate at 80
characters with an ellipsis marker), never yields more than 83 characters,
and maps the sample read "SSH-2.0-OpenSSH_8.9\r\nextra\r\n" to exactly
"SSH-2.0-OpenSSH_8.9". -/
theorem getBanner_postprocess :
    (∀ bytes : List Char, getBanner (some bytes) = bannerPostprocessSpec bytes) ∧
    (∀ bytes : List Char, (getBanner (some bytes)).data.length ≤ 83) ∧
    getBanner (some "SSH-2.0-OpenSSH_8.9\r\nextra\r\n".data) =
      "SSH-2.0-OpenSSH_8.9" := by
  have hmain : ∀ bytes : List Char,
      getBanner (some bytes) = bannerPostprocessSpec bytes := by
    intro bytes
    rw [getBanner, bannerPostprocessSpec]
    cases h : splitOnChar '\n' (goTrimSpace bytes) with
    | nil => exact absurd h (splitOnChar_ne_nil _ _)
    | cons l t => simp [truncateBanner, h]
  refine ⟨hmain, ?_, ?_⟩
  · intro bytes
    rw [hmain bytes]
    simp only [bannerPostprocessSpec, String_data_mk]
    have h3 : ("...".data).length = 3 := rfl
    split
    · simp only [List.length_append, List.length_take, h3]
      omega
    · omega
  · decide

/-- C8: a successful probe emits exactly one open line whatever the
verbosity (the only further line a verbose probe may add is a banner
line), the line carries a service annotation exactly when the static
table has an entry for the port (a table miss omits the annotation
instead of printing it empty), and port 22 is annotated SSH. -/
theorem scanPort_open_line (options : ScanOptions) (port : Nat)
    (readResult : Option (List Char)) :
    scanPort options port none readResult =
      (match commonPorts.lookup port with
       | some service => "Port " ++ toString port ++ "/tcp open - " ++ service
       | none => "Port " ++ toString port ++ "/tcp open") ::
      (if options.Verbose = true ∧ getBanner readResult ≠ "" then
        ["  └─ Banner: " ++ getBanner readResult]
      else []) ∧
    getServiceName 22 = "SSH" := by
  constructor
  · cases hlk : commonPorts.lookup port with
    | none =>
      have hsvc : getServiceName port = "" := by rw [getServiceName, hlk]
      by_cases hv : options.Verbose <;>
        by_cases hb : getBanner readResult = "" <;>
        simp [scanPort, hsvc, hv, hb, hlk]
    | some service =>
      have hsvc : getServiceName port = service := by rw [getServiceName, hlk]
      have hne : service ≠ "" := commonPorts_lookup_ne_empty hlk
      by_cases hv : options.Verbose <;>
        by_cases hb : getBanner readResult = "" <;>
        simp [scanPort, hsvc, hv, hb, hlk, hne]
  · rfl

/-- C9: banner capture never fails the probe — a read error (the model of
any failed read, deadline expiry included) yields the empty banner rather
than an error value — and the HTTP HEAD greeting is written exactly for
ports 80, 443 and 8080, every other port being read without sending
anything. -/
theorem getBanner_total_and_greeting :
    getBanner none = "" ∧
    (∀ port : Nat, port = 80 ∨ port = 443 ∨ port = 8080 →
      bannerGreeting port = some "HEAD / HTTP/1.0\r\n\r\n") ∧
    (∀ port : Nat, port ≠ 80 → port ≠ 443 → port ≠ 8080 →
      bannerGreeting port = none) := by
  refine ⟨rfl, ?_, ?_⟩
  · intro port h
    rw [bannerGreeting, if_pos h]
  · intro port h1 h2 h3
    rw [bannerGreeting, if_neg (by simp [h1, h2, h3])]

theorem getBanner_total_and_greeting_witness :
    bannerGreeting 80 = some "HEAD / HTTP/1.0\r\n\r\n" ∧ bannerGreeting 22 = none :=
  ⟨getBanner_total_and_greeting.2.1 80 (Or.inl rfl),
    getBanner_total_and_greeting.2.2 22 (by decide) (by decide) (by decide)⟩

/-- Observable events of the dispatch loop of runPortScan: a goroutine
launch for a port, the termination of a launched probe, and the final
"Scan complete!" announcement. -/
inductive Event where
  | dispatch (port : Nat)
  | complete (port : Nat)
  | finish
  deriving DecidableEq

/-- State of the dispatch loop of runPortScan: the loop counter `next`
(the next port to launch), the multiset of launched, not yet terminated
probes `inFlight` (the WaitGroup's outstanding count is its length), and
whether the completion line has been printed. -/
structure EngineState where
  next : Nat
  inFlight : List Nat
  finished : Bool
  deriving DecidableEq

/-- State of the engine when runPortScan enters its loop (src/pscan.go
line 193): the counter sits at StartPort, nothing is in flight. -/
def initState (startPort : Nat) : EngineState :=
  ⟨startPort, [], false⟩

/-- Small-step semantics of the dispatch loop of runPortScan
(src/pscan.go lines 193-206), parameterised by StartPort, EndPort and
Threads. A `dispatch` launches the next port while the loop runs
(`next ≤ endPort`); its side condition is the translation of the
`port % options.Threads == 0 { wg.Wait() }` barrier: after the port
`next - 1` was dispatched with `(next - 1) % threads = 0` the loop is
inside `wg.Wait()` and may only dispatch again once `inFlight` is empty
(the disjunct `next = startPort` covers the loop entry, where nothing was
dispatched yet). A `complete` retires any in-flight probe at any time
(goroutines finish in arbitrary order). A `finish` prints the completion
line: only after the loop has passed EndPort and the final `wg.Wait()`
drained every probe. -/
inductive Step (startPort endPort threads : Nat) :
    EngineState → Event → EngineState → Prop where
  | dispatch (s : EngineState) (hrun : s.finished = false)
      (hle : s.next ≤ endPort)
      (hbar : s.next = startPort ∨ (s.next - 1) % threads ≠ 0 ∨ s.inFlight = []) :
      Step startPort endPort threads s (Event.dispatch s.next)
        ⟨s.next + 1, s.next :: s.inFlight, false⟩
  | complete (s : EngineState) (p : Nat) (hrun : s.finished = false)
      (hp : p ∈ s.inFlight) :
      Step startPort endPort threads s (Event.complete p)
        ⟨s.next, s.inFlight.erase p, false⟩
  | finish (s : EngineState) (hrun : s.finished = false)
      (hgt : endPort < s.next) (hfl : s.inFlight = []) :
      Step startPort endPort threads s Event.finish ⟨s.next, [], true⟩

/-- Executions of the engine: finite sequences of steps with their event
trace. -/
inductive Exec (startPort endPort threads : Nat) :
    EngineState → List Event → EngineState → Prop where
  | nil (s : EngineState) : Exec startPort endPort threads s [] s
  | cons (s s' s'' : EngineState) (ev : Event) (tr : List Event)
      (hstep : Step startPort endPort threads s ev s')
      (hrest : Exec startPort endPort threads s' tr s'') :
      Exec startPort endPort threads s (ev :: tr) s''

/-- The ports dispatched along a trace, in order. -/
def dispatches : List Event → List Nat
  | [] => []
  | Event.dispatch p :: tr => p :: dispatches tr
  | Event.complete _ :: tr => dispatches tr
  | Event.finish :: tr => dispatches tr

/-- The ports whose probes completed along a trace, in order. -/
def completes : List Event → List Nat
  | [] => []
  | Event.dispatch _ :: tr => completes tr
  | Event.complete p :: tr => p :: completes tr
  | Event.finish :: tr => completes tr

/-- The ascending port sequence of given length starting at a port. -/
def portSeq (startPort : Nat) : Nat → List Nat
  | 0 => []
  | n + 1 => startPort :: portSeq (startPort + 1) n

/-- First port of the batch whose last dispatched port is `d`: batch
boundaries sit at multiples of `threads`, so the batch holding `d`
reaches back `(d - 1) % threads` ports. -/
def batchLow (threads d : Nat) : Nat :=
  d - (d - 1) % threads

/-- Invariant of the dispatch loop: no port is in flight twice, every
in-flight port was dispatched (is below `next`, at or above `startPort`)
and belongs to the current batch. -/
structure EngineInv (startPort threads : Nat) (s : EngineState) : Prop where
  nodup : s.inFlight.Nodup
  start_le : startPort ≤ s.next
  mem_lb : ∀ q ∈ s.inFlight, startPort ≤ q
  mem_batch : ∀ q ∈ s.inFlight, batchLow threads (s.next - 1) ≤ q
  mem_ub : ∀ q ∈ s.inFlight, q < s.next

lemma mod_succ_of_ne_zero (n L : Nat) (h : (n + 1) % L ≠ 0) :
    (n + 1) % L = n % L + 1 := by
  match L, h with
  | 0, _ => simp
  | 1, h => exact absurd (Nat.mod_one (n + 1)) h
  | (m + 2), h =>
    have h1 : (n + 1) % (m + 2) = (n % (m + 2) + 1) % (m + 2) := by
      conv_lhs => rw [Nat.add_mod, Nat.one_mod]
    have hlt : n % (m + 2) < m + 2 := Nat.mod_lt _ (by omega)
    rcases Nat.lt_or_ge (n % (m + 2) + 1) (m + 2) with h2 | h2
    · rw [h1, Nat.mod_eq_of_lt h2]
    · exfalso
      have he : n % (m + 2) + 1 = m + 2 := by omega
      rw [h1, he] at h
      simp at h

lemma length_le_of_nodup_mem_Icc (l : List Nat) (lo hi : Nat)
    (hnd : l.Nodup) (hmem : ∀ q ∈ l, lo ≤ q ∧ q ≤ hi) :
    l.length ≤ hi + 1 - lo := by
  have hsub : l.toFinset ⊆ Finset.Icc lo hi := by
    intro q hq
    rw [List.mem_toFinset] at hq
    exact Finset.mem_Icc.mpr (hmem q hq)
  have hcard := Finset.card_le_card hsub
  rw [List.toFinset_card_of_nodup hnd] at hcard
  simpa [Nat.card_Icc] using hcard


lemma batchLow_stable {threads d : Nat} (hd : (d - 1) % threads ≠ 0) :
    batchLow threads d ≤ batchLow threads (d - 1) := by
  have hd2 : 2 ≤ d := by
    by_contra hlt
    push_neg at hlt
    interval_cases d <;> simp_all
  have he : d - 1 = (d - 2) + 1 := by omega
  have hmod : (d - 1) % threads = (d - 2) % threads + 1 := by
    rw [he]
    exact mod_succ_of_ne_zero (d - 2) threads (by rw [← he]; exact hd)
  have hle : (d - 2) % threads ≤ d - 2 := Nat.mod_le _ _
  have he2 : d - 1 - 1 = d - 2 := by omega
  rw [batchLow, batchLow, hmod, he2]
  omega

lemma initState_inv (startPort threads : Nat) :
    EngineInv startPort threads (initState startPort) := by
  refine ⟨List.nodup_nil, le_rfl, ?_, ?_, ?_⟩ <;> intro q hq <;> simp [initState] at hq

lemma step_preserves_inv {startPort endPort threads : Nat}
    {s s' : EngineState} {ev : Event}
    (hstep : Step startPort endPort threads s ev s') :
    EngineInv startPort threads s → EngineInv startPort threads s' := by
  intro hinv
  cases hstep with
  | dispatch hrun hle hbar =>
    refine ⟨?_, ?_, ?_, ?_, ?_⟩
    · exact List.nodup_cons.mpr
        ⟨fun hm => absurd (hinv.mem_ub _ hm) (lt_irrefl _), hinv.nodup⟩
    · exact le_trans hinv.start_le (Nat.le_succ _)
    · intro q hq
      rcases List.mem_cons.mp hq with rfl | hq
      · exact hinv.start_le
      · exact hinv.mem_lb q hq
    · intro q hq
      show batchLow threads s.next ≤ q
      rcases List.mem_cons.mp hq with rfl | hq
      · exact Nat.sub_le _ _
      · rcases hbar with hst | hmod | hemp
        · have h1 := hinv.mem_lb q hq
          have h2 := hinv.mem_ub q hq
          omega
        · exact le_trans (batchLow_stable hmod) (hinv.mem_batch q hq)
        · rw [hemp] at hq
          simp at hq
    · intro q hq
      rcases List.mem_cons.mp hq with rfl | hq
      · exact Nat.lt_succ_self _
      · exact Nat.lt_succ_of_lt (hinv.mem_ub q hq)
  | complete p hrun hp =>
    refine ⟨hinv.nodup.erase p, hinv.start_le, ?_, ?_, ?_⟩ <;>
      intro q hq
    · exact hinv.mem_lb q (List.mem_of_mem_erase hq)
    · exact hinv.mem_batch q (List.mem_of_mem_erase hq)
    · exact hinv.mem_ub q (List.mem_of_mem_erase hq)
  | finish hrun hgt hfl =>
    refine ⟨List.nodup_nil, hinv.start_le, ?_, ?_, ?_⟩ <;> intro q hq <;> simp at hq

lemma exec_preserves_inv {startPort endPort threads : Nat}
    {s : EngineState} {tr : List Event} {s' : EngineState}
    (hexec : Exec startPort endPort threads s tr s') :
    EngineInv startPort threads s → EngineInv startPort threads s' := by
  induction hexec with
  | nil s => exact id
  | cons s s' s'' ev tr hstep hrest ih =>
    intro hinv
    exact ih (step_preserves_inv hstep hinv)

lemma inv_length_le {startPort threads : Nat} {s : EngineState}
    (ht : 1 ≤ threads) (hinv : EngineInv startPort threads s) :
    s.inFlight.length ≤ threads := by
  cases hfl : s.inFlight with
  | nil => simp
  | cons q0 rest =>
    rw [← hfl]
    have hq0 : q0 ∈ s.inFlight := by rw [hfl]; exact List.mem_cons_self _ _
    have hpos : 0 < s.next := lt_of_le_of_lt (Nat.zero_le q0) (hinv.mem_ub q0 hq0)
    have hlen := length_le_of_nodup_mem_Icc s.inFlight
      (batchLow threads (s.next - 1)) (s.next - 1) hinv.nodup
      (fun q hq => ⟨hinv.mem_batch q hq, by have := hinv.mem_ub q hq; omega⟩)
    have hmlt : (s.next - 1 - 1) % threads < threads := Nat.mod_lt _ (by omega)
    have hmle : (s.next - 1 - 1) % threads ≤ s.next - 1 - 1 := Nat.mod_le _ _
    rw [batchLow] at hlen
    omega

lemma exec_next_dispatches {startPort endPort threads : Nat}
    {s : EngineState} {tr : List Event} {s' : EngineState}
    (hexec : Exec startPort endPort threads s tr s') :
    s.next ≤ s'.next ∧ dispatches tr = portSeq s.next (s'.next - s.next) := by
  induction hexec with
  | nil s => simp [dispatches, Nat.sub_self, portSeq]
  | cons s s' s'' ev tr hstep hrest ih =>
    cases hstep with
    | dispatch hrun hle hbar =>
      have hmono : s.next + 1 ≤ s''.next := ih.1
      have hdisp : dispatches tr = portSeq (s.next + 1) (s''.next - (s.next + 1)) := ih.2
      refine ⟨by omega, ?_⟩
      simp only [dispatches]
      rw [hdisp]
      have hk : s''.next - s.next = (s''.next - (s.next + 1)) + 1 := by omega
      rw [hk]
      rfl
    | complete p hrun hp =>
      have hmono : s.next ≤ s''.next := ih.1
      have hdisp : dispatches tr = portSeq s.next (s''.next - s.next) := ih.2
      refine ⟨hmono, ?_⟩
      simp only [dispatches]
      exact hdisp
    | finish hrun hgt hfl =>
      have hmono : s.next ≤ s''.next := ih.1
      have hdisp : dispatches tr = portSeq s.next (s''.next - s.next) := ih.2
      refine ⟨hmono, ?_⟩
      simp only [dispatches]
      exact hdisp

lemma exec_finished_drained {startPort endPort threads : Nat}
    {s : EngineState} {tr : List Event} {s' : EngineState}
    (hexec : Exec startPort endPort threads s tr s') :
    (s.finished = true → endPort < s.next ∧ s.inFlight = []) →
    s'.finished = true → endPort < s'.next ∧ s'.inFlight = [] := by
  induction hexec with
  | nil s => exact id
  | cons s s' s'' ev tr hstep hrest ih =>
    intro hs
    refine ih ?_
    cases hstep with
    | dispatch hrun hle hbar => intro hfin; exact absurd hfin (by simp)
    | complete p hrun hp => intro hfin; exact absurd hfin (by simp)
    | finish hrun hgt hfl => intro hfin; exact ⟨hgt, rfl⟩

lemma exec_next_le {startPort endPort threads : Nat}
    {s : EngineState} {tr : List Event} {s' : EngineState}
    (hexec : Exec startPort endPort threads s tr s') :
    s.next ≤ endPort + 1 → s'.next ≤ endPort + 1 := by
  induction hexec with
  | nil s => exact id
  | cons s s' s'' ev tr hstep hrest ih =>
    intro hs
    refine ih ?_
    cases hstep with
    | dispatch hrun hle hbar => exact Nat.succ_le_succ hle
    | complete p hrun hp => exact hs
    | finish hrun hgt hfl => exact hs

lemma exec_dispatch_complete_perm {startPort endPort threads : Nat}
    {s : EngineState} {tr : List Event} {s' : EngineState}
    (hexec : Exec startPort endPort threads s tr s') :
    (s.inFlight ++ dispatches tr).Perm (completes tr ++ s'.inFlight) := by
  induction hexec with
  | nil s => simp [dispatches, completes]
  | cons s s' s'' ev tr hstep hrest ih =>
    cases hstep with
    | dispatch hrun hle hbar =>
      simp only [dispatches, completes]
      exact List.Perm.trans List.perm_middle ih
    | complete p hrun hp =>
      simp only [dispatches, completes]
      refine List.Perm.trans (List.Perm.append_right _ (List.perm_cons_erase hp)) ?_
      exact List.Perm.cons p ih
    | finish hrun hgt hfl =>
      simp only [dispatches, completes]
      rw [hfl]
      simpa using ih

/-- C1: over any execution of the dispatch loop with concurrency limit
Threads ≥ 1, the dispatched ports form the ascending contiguous sequence
from StartPort (ports are launched in ascending order with no gap), and
the number of in-flight probes never exceeds Threads — the `hbar` barrier
condition of `Step.dispatch`, translated from the
`port % options.Threads == 0 { wg.Wait() }` lines, confines every
in-flight probe to the batch ending at the last multiple-of-Threads
boundary, so each batch (the first one shorter when StartPort is not
congruent to 1 modulo Threads) holds at most Threads probes. Since every
prefix of an execution is an execution, the bound holds at every
reachable state. -/
theorem runPortScan_ascending_bounded_dispatch (options : ScanOptions)
    (hL : 1 ≤ options.Threads) (tr : List Event) (s' : EngineState)
    (hexec : Exec options.StartPort options.EndPort options.Threads
      (initState options.StartPort) tr s') :
    dispatches tr = portSeq options.StartPort (s'.next - options.StartPort) ∧
    s'.inFlight.length ≤ options.Threads := by
  refine ⟨?_, ?_⟩
  · exact (exec_next_dispatches hexec).2
  · exact inv_length_le hL (exec_preserves_inv hexec (initState_inv _ _))

/-- A two-port single-thread configuration with its complete engine run,
used by the concurrency witnesses. -/
def demoOptions : ScanOptions := ⟨"localhost", 1, 1, 2000, 1, false, false, false⟩

/-- The event trace of the complete demo run. -/
def demoTrace : List Event := [Event.dispatch 1, Event.complete 1, Event.finish]

/-- The final engine state of the demo run. -/
def demoFinal : EngineState := ⟨2, [], true⟩

lemma demoExec : Exec 1 1 1 (initState 1) demoTrace demoFinal :=
  Exec.cons (initState 1) ⟨2, [1], false⟩ demoFinal (Event.dispatch 1)
    [Event.complete 1, Event.finish]
    (Step.dispatch (initState 1) rfl (by decide) (Or.inl rfl))
    (Exec.cons ⟨2, [1], false⟩ ⟨2, [], false⟩ demoFinal (Event.complete 1)
      [Event.finish]
      (Step.complete ⟨2, [1], false⟩ 1 rfl (List.mem_cons_self 1 []))
      (Exec.cons ⟨2, [], false⟩ demoFinal demoFinal Event.finish []
        (Step.finish ⟨2, [], false⟩ rfl (by decide) rfl)
        (Exec.nil demoFinal)))

theorem runPortScan_ascending_bounded_dispatch_witness :
    dispatches demoTrace =
      portSeq demoOptions.StartPort (demoFinal.next - demoOptions.StartPort) ∧
    demoFinal.inFlight.length ≤ demoOptions.Threads :=
  runPortScan_ascending_bounded_dispatch demoOptions (by decide) demoTrace
    demoFinal demoExec

/-- C2: any execution of the engine from its initial state that reaches
the completion announcement (`finished = true`) has dispatched exactly
the ports StartPort..EndPort, each exactly once and in ascending order,
and the completed probes are a permutation of that same sequence — every
dispatched probe finished, no port was probed twice or skipped — because
`Step.finish` fires only after the loop passed EndPort and the final
`wg.Wait()` drained `inFlight`. -/
theorem runPortScan_exactly_once (options : ScanOptions)
    (hL : 1 ≤ options.Threads) (hs : 1 ≤ options.StartPort)
    (hse : options.StartPort ≤ options.EndPort)
    (tr : List Event) (s' : EngineState)
    (hexec : Exec options.StartPort options.EndPort options.Threads
      (initState options.StartPort) tr s')
    (hfin : s'.finished = true) :
    dispatches tr =
      portSeq options.StartPort (options.EndPort + 1 - options.StartPort) ∧
    (completes tr).Perm
      (portSeq options.StartPort (options.EndPort + 1 - options.StartPort)) := by
  obtain ⟨hgt, hempty⟩ := exec_finished_drained hexec
    (fun h => absurd h (by simp [initState])) hfin
  have hub := exec_next_le hexec (by simp only [initState]; omega)
  have hnext : s'.next = options.EndPort + 1 := by omega
  have hd := (exec_next_dispatches hexec).2
  simp only [initState] at hd
  rw [hnext] at hd
  have hperm := exec_dispatch_complete_perm hexec
  simp only [initState, List.nil_append] at hperm
  rw [hempty, List.append_nil] at hperm
  exact ⟨hd, hd ▸ hperm.symm⟩

theorem runPortScan_exactly_once_witness :
    dispatches demoTrace =
      portSeq demoOptions.StartPort
        (demoOptions.EndPort + 1 - demoOptions.StartPort) ∧
    (completes demoTrace).Perm
      (portSeq demoOptions.StartPort
        (demoOptions.EndPort + 1 - demoOptions.StartPort)) :=
  runPortScan_exactly_once demoOptions (by decide) (by decide) (by decide)
    demoTrace demoFinal demoExec rfl

/-- Model of the Go remainder in `port % options.Threads` (src/pscan.go
line 198): Go's integer remainder faults with a run-time panic when the
divisor is zero; the fault is modelled as `none`. -/
def goMod (a b : Nat) : Option Nat :=
  if b = 0 then none else some (a % b)

/-- The sequence of `port%options.Threads == 0` tests evaluated by the
dispatch loop of runPortScan, one per iteration over the given port list;
`none` as soon as an iteration faults. -/
def dispatchChecks (threads : Nat) : List Nat → Option (List Bool)
  | [] => some []
  | port :: rest =>
    match goMod port threads with
    | none => none
    | some r =>
      match dispatchChecks threads rest with
      | none => none
      | some bs => some (decide (r = 0) :: bs)

/-- C10: the dispatch loop's batching test `port % options.Threads == 0`
carries no zero-guard — with Threads ≥ 1 every iteration's remainder is
well defined (the whole check sequence evaluates), while with Threads = 0
over a non-empty port interval the very first iteration divides by zero
and faults — so the spec's positive-concurrency-limit precondition is
necessary for the engine not to panic. -/
theorem runPortScan_threads_zero_faults :
    (∀ (threads : Nat) (ports : List Nat), 1 ≤ threads →
      dispatchChecks threads ports =
        some (ports.map (fun port => decide (port % threads = 0)))) ∧
    (∀ startPort endPort : Nat, startPort ≤ endPort →
      dispatchChecks 0 (portSeq startPort (endPort + 1 - startPort)) = none) := by
  constructor
  · intro threads ports ht
    induction ports with
    | nil => rfl
    | cons p rest ih =>
      simp only [dispatchChecks, goMod, if_neg (show ¬threads = 0 by omega), ih,
        List.map]
  · intro startPort endPort hse
    have hk : endPort + 1 - startPort = (endPort - startPort) + 1 := by omega
    rw [hk, portSeq]
    rfl

theorem runPortScan_threads_zero_faults_witness :
    dispatchChecks 2 [1, 2, 3] =
      some ([1, 2, 3].map (fun port => decide (port % 2 = 0))) ∧
    dispatchChecks 0 (portSeq 1 (1 + 1 - 1)) = none :=
  ⟨runPortScan_threads_zero_faults.1 2 [1, 2, 3] (by decide),
    runPortScan_threads_zero_faults.2 1 1 (by decide)⟩
